import Mathlib

set_option maxHeartbeats 1000000

/-!
Shallow embedding of `apply_rules.py`, a GnuCash rule-application batch tool.

The tool reclassifies imbalanced transactions of a ledger: for each scanned
account it fetches the transactions of a requested calendar month, keeps the
imbalanced ones, and reassigns those whose description matches a rule trigger
to the rule's destination account, converting the amount when the two
accounts have different commodities.

Modelling conventions:
* Python `datetime` values are records of their fields, compared
  lexicographically, as CPython does.
* GnuCash accounts live in a tree (`AccountTree`); the data attached to an
  account id (name, commodity mnemonic) and the price database are external
  library state collected in `Env`.
* Transactions are values in a `Book`; a "transaction object" of the Python
  run is identified by its index in `Book.txns`, and mutation is explicit
  state passing.
* Fallible steps (a Python exception) return `Option`/`Except`; `set_dst_account`
  distinguishes its failure modes with `SdaError`.
* Floating point `to_double` arithmetic is modelled exactly over `ℚ`;
  Python `int(...)` is truncation toward zero (`pyInt`).
* Each `set_dst_account` call performed by `process` is recorded as an event
  `(transaction index, destination account id)` so that "the set of
  transactions reassigned by process" is a statement about the run.
-/

/-- Python `datetime.datetime`: a record of its fields. -/
structure PyDateTime where
  year : Int
  month : Nat
  day : Nat
  hour : Nat
  minute : Nat
  second : Nat
  micro : Nat
deriving DecidableEq

instance : Inhabited PyDateTime := ⟨⟨0, 1, 1, 0, 0, 0, 0⟩⟩

/-- Lexicographic strict comparison of equal-length key lists, as CPython
compares tuples. -/
def lexLt : List Int → List Int → Bool
  | [], [] => false
  | [], _ :: _ => true
  | _ :: _, [] => false
  | x :: xs, y :: ys => x < y || (x == y && lexLt xs ys)

/-- The comparison key of a datetime: its fields, most significant first. -/
def PyDateTime.key (a : PyDateTime) : List Int :=
  [a.year, a.month, a.day, a.hour, a.minute, a.second, a.micro]

/-- Python `<` on datetimes: lexicographic on the fields. -/
def PyDateTime.ltb (a b : PyDateTime) : Bool :=
  lexLt a.key b.key

/-- Python `>=` on datetimes. -/
def PyDateTime.geb (a b : PyDateTime) : Bool :=
  PyDateTime.ltb b a || a == b

/-- `datetime(year, month, day)` with all time-of-day fields zero. -/
def pydatetime (year : Int) (month day : Nat) : PyDateTime :=
  ⟨year, month, day, 0, 0, 0, 0⟩

/-- `filter_out` (apply_rules.py, lines 60-66): a datetime is filtered out
when it is before the first instant of the requested month or at/after the
first instant of the following month (January of the next year for month 12). -/
def filter_out (dt : PyDateTime) (year : Int) (month : Nat) : Bool :=
  let dt1 := pydatetime year month 1
  let dt2 := if month == 12 then pydatetime (year + 1) 1 1 else pydatetime year (month + 1) 1
  PyDateTime.ltb dt dt1 || PyDateTime.geb dt dt2

/-- `GncNumeric(num, denom)` of the GnuCash library. -/
structure GncNumeric where
  num : Int
  denom : Int
deriving DecidableEq

/-- `GncNumeric.to_double()`, modelled exactly over `ℚ`. -/
def GncNumeric.toRat (n : GncNumeric) : ℚ := (n.num : ℚ) / (n.denom : ℚ)

/-- Python `int(...)` applied to a number: truncation toward zero. -/
def pyInt (q : ℚ) : Int := q.num.sign * (q.num.natAbs / q.den : Nat)

/-- One leg of a transaction: the id of the account it sits in and its amount. -/
structure Split where
  accountId : Nat
  amount : GncNumeric
deriving DecidableEq

/-- A transaction: date, description and its splits. -/
structure Txn where
  date : PyDateTime
  description : String
  splits : List Split
deriving DecidableEq

instance : Inhabited Txn := ⟨⟨default, "", []⟩⟩

/-- The mutable transaction store of the opened ledger.  A Python transaction
object is identified by its index in `txns`. -/
structure Book where
  txns : List Txn
deriving DecidableEq

/-- Dereference a transaction object.  All indices that arise in a run come
from `Book.txns` itself, so the default is never hit there. -/
def Book.getTxn (bk : Book) (i : Nat) : Txn := bk.txns[i]?.getD default

/-- The library data of one account: `GetName()` and
`GetCommodity().get_mnemonic()`. -/
structure AccountData where
  name : String
  commodity : String

/-- A price-database entry; `get_value()` yields the `GncNumeric` `⟨num, denom⟩`. -/
structure Price where
  num : Int
  denom : Int
deriving DecidableEq

/-- External GnuCash library state: the account registry (keyed by account id)
and the price database (`PriceDb.lookup_nearest_in_time64`, whose arguments
are the two commodity mnemonics and a date; `none` models a missing price). -/
structure Env where
  accounts : Nat → AccountData
  lookup_nearest_in_time64 : String → String → PyDateTime → Option Price

/-- The GnuCash account tree: account id, name and children. -/
inductive AccountTree where
  | node (id : Nat) (name : String) (children : List AccountTree)

def AccountTree.id : AccountTree → Nat
  | .node i _ _ => i

def AccountTree.name : AccountTree → String
  | .node _ n _ => n

def AccountTree.children : AccountTree → List AccountTree
  | .node _ _ cs => cs

/-- Model of the GnuCash binding `Account.lookup_by_name`, which returns the
child of the given name, or `None` when there is none. -/
def lookup_by_name (a : AccountTree) (name : String) : Option AccountTree :=
  a.children.find? (fun c => c.name == name)

/-- Python `str.split(sep)` with a one-character separator, on the character
list. `"".split(":") = [""]`, `":".split(":") = ["", ""]`. -/
def splitChars (sep : Char) : List Char → List (List Char)
  | [] => [[]]
  | c :: cs =>
    match splitChars sep cs with
    | [] => [[]]
    | hd :: tl => if c == sep then [] :: hd :: tl else (c :: hd) :: tl

/-- Python `path_str.split(":")`. -/
def pySplit (s : String) (sep : Char) : List String :=
  (splitChars sep s.toList).map List.asString

/-- The inner `_account_lookup_by_path` (lines 51-56).  `path.pop(0)` on an
empty list raises `IndexError` and recursing into a `None` child raises
`AttributeError`; both Python exceptions are `.error ()`.  When the *last*
component is not found the Python function returns `None`, i.e. `.ok none`. -/
def account_lookup_by_path_aux (account : AccountTree) : List String → Except Unit (Option AccountTree)
  | [] => .error ()
  | name :: rest =>
    match lookup_by_name account name, rest with
    | child, [] => .ok child
    | some child, _ :: _ => account_lookup_by_path_aux child rest
    | none, _ :: _ => .error ()

/-- `account_lookup_by_path` (lines 50-57). -/
def account_lookup_by_path (account : AccountTree) (path_str : String) : Except Unit (Option AccountTree) :=
  account_lookup_by_path_aux account (pySplit path_str ':')

/-- Whether a path lookup yields an actual account. -/
def lookupFound (root : AccountTree) (p : String) : Bool :=
  match account_lookup_by_path root p with
  | .ok (some _) => true
  | _ => false

/-- The account id a destination path resolves to, if any. -/
def dstIdOf (root : AccountTree) (p : String) : Option Nat :=
  match account_lookup_by_path root p with
  | .ok (some a) => some a.id
  | _ => none

/-- `Account.GetSplitList()`: every split sitting in the account, paired with
the index of its parent transaction. -/
def getSplitList (bk : Book) (accId : Nat) : List (Nat × Split) :=
  bk.txns.enum.flatMap
    (fun p => (p.2.splits.filter (fun s => s.accountId == accId)).map (fun s => (p.1, s)))

/-- `get_transactions` (lines 69-72): the parents of the account's splits
whose date passes the month filter. -/
def get_transactions (bk : Book) (accId : Nat) (year : Int) (month : Nat) : List Nat :=
  ((getSplitList bk accId).filter
    (fun p => !filter_out (bk.getTxn p.1).date year month)).map (fun p => p.1)

/-- Python `str.startswith`, on the character lists. -/
def listStartsWith : List Char → List Char → Bool
  | _, [] => true
  | [], _ :: _ => false
  | c :: cs, d :: ds => c == d && listStartsWith cs ds

/-- Python `s.startswith(p)`. -/
def pyStartswith (s p : String) : Bool := listStartsWith s.toList p.toList

/-- `is_split_imbalanced` (lines 75-77). -/
def is_split_imbalanced (env : Env) (s : Split) : Bool :=
  pyStartswith (env.accounts s.accountId).name "Imbalance-"

/-- `is_imbalanced` (lines 80-84). -/
def is_imbalanced (env : Env) (txn : Txn) : Bool :=
  (txn.splits.filter (fun s => is_split_imbalanced env s)).length != 0

/-- `accounts_eq_commodities` (lines 94-99): compares commodity mnemonics. -/
def accounts_eq_commodities (env : Env) (src_account dst_account : Nat) : Bool :=
  (env.accounts src_account).commodity == (env.accounts dst_account).commodity

/-- `get_exchange_rate` (lines 102-110): the nearest-in-time price for the
pair (source commodity, destination commodity) at the given date, converted
to a number; `none` when the price database has no entry (Python would raise
on `price.get_value()`). -/
def get_exchange_rate (env : Env) (src_account dst_account : Nat) (date : PyDateTime) : Option ℚ :=
  match env.lookup_nearest_in_time64 (env.accounts src_account).commodity
      (env.accounts dst_account).commodity date with
  | none => none
  | some price => some (GncNumeric.toRat ⟨price.num, price.denom⟩)

/-- Failure modes of `set_dst_account`: the `txn.GetSplitList()[0]` indexing
inside `print_txn` (line 89, IndexError on an empty split list — raised
before the assert is reached), the `assert len(splits) == 2`
(AssertionError), a `None` destination account handed to `SetAccount`
(raises in the binding), and a missing price entry. -/
inductive SdaError where
  | indexError
  | assertFailed
  | nullAccount
  | missingPrice
deriving DecidableEq

/-- `set_dst_account` (lines 113-135).  `print_txn(txn)` runs first (line
114) and indexes `txn.GetSplitList()[0]` (line 89), so a transaction with no
splits fails with IndexError before the assertion; then the assert requires
exactly two splits; the imbalanced one (`splits[0]` if it is imbalanced,
else `splits[1]`) is moved to `dst_account`, with its amount recomputed as
`GncNumeric(int(amount * exchange_rate * 1000), 1000)` when the source and
destination commodities differ. -/
def set_dst_account (env : Env) (txn : Txn) (dst_account : Option Nat) : Except SdaError Txn :=
  match txn.splits with
  | [] => .error .indexError
  | [s0, s1] =>
    match dst_account with
    | none => .error .nullAccount
    | some dstAcc =>
      let dstFirst := is_split_imbalanced env s0
      let src := if dstFirst then s1 else s0
      let dst := if dstFirst then s0 else s1
      let src_account := src.accountId
      if accounts_eq_commodities env src_account dstAcc then
        let dst' : Split := { dst with accountId := dstAcc }
        .ok { txn with splits := if dstFirst then [dst', src] else [src, dst'] }
      else
        match get_exchange_rate env src_account dstAcc txn.date with
        | none => .error .missingPrice
        | some exchange_rate =>
          let amount := GncNumeric.toRat dst.amount
          let dst' : Split :=
            { accountId := dstAcc, amount := ⟨pyInt (amount * exchange_rate * 1000), 1000⟩ }
          .ok { txn with splits := if dstFirst then [dst', src] else [src, dst'] }
  | _ => .error .assertFailed

/-- The body of `apply_rule`'s loop: one `set_dst_account` call on transaction
object `i`, recorded as the event `(i, dst_account)`. -/
def applyStep (env : Env) (dst_account : Option Nat)
    (acc : Book × List (Nat × Option Nat)) (i : Nat) : Option (Book × List (Nat × Option Nat)) :=
  match set_dst_account env ((acc.1).getTxn i) dst_account with
  | .ok t' => some (⟨(acc.1).txns.set i t'⟩, acc.2 ++ [(i, dst_account)])
  | .error _ => none

/-- `apply_rule` (lines 138-141): filter the given transactions to those whose
description equals the trigger, and reassign each of them. -/
def apply_rule (env : Env) (bk : Book) (txnIdxs : List Nat) (description : String)
    (dst_account : Option Nat) : Option (Book × List (Nat × Option Nat)) :=
  let txns := txnIdxs.filter (fun i => (bk.getTxn i).description == description)
  txns.foldlM (applyStep env dst_account) (bk, [])

/-- Python dict assignment `d[k] = v` on an insertion-ordered association
list: an existing key keeps its position and gets the new value, a new key is
appended. -/
def pyDictInsert (d : List (String × String)) (k v : String) : List (String × String) :=
  if d.any (fun p => p.1 == k) then d.map (fun p => if p.1 == k then (k, v) else p)
  else d ++ [(k, v)]

/-- Python dict read `d.get(k)`. -/
def pyDictLookup (d : List (String × String)) (k : String) : Option String :=
  (d.find? (fun p => p.1 == k)).map (fun p => p.2)

/-- `rules2darules` (lines 144-145):
`{key: target for target, descs in config.items() for key in descs}`. -/
def rules2darules (config : List (String × List String)) : List (String × String) :=
  config.foldl (fun d p => p.2.foldl (fun d key => pyDictInsert d key p.1) d) []

/-- All (trigger, destination) pairs of the configuration, in iteration order. -/
def cfgPairs (config : List (String × List String)) : List (String × String) :=
  config.flatMap (fun p => p.2.map (fun d => (d, p.1)))

/-- The rules document: the "Accounts to scan" list and the "Rules" mapping
(destination path → trigger descriptions), in document order. -/
structure RulesConfig where
  accountsToScan : List String
  rulesMap : List (String × List String)

/-- The body of `process`'s inner loop over `da_rules.items()`: resolve the
destination path and apply the rule to the scanned transactions. -/
def ruleStep (env : Env) (root : AccountTree) (txns : List Nat)
    (acc : Book × List (Nat × Option Nat)) (rule : String × String) :
    Option (Book × List (Nat × Option Nat)) :=
  match account_lookup_by_path root rule.2 with
  | .error _ => none
  | .ok dstAcc =>
    match apply_rule env acc.1 txns rule.1 (dstAcc.map AccountTree.id) with
    | none => none
    | some r => some (r.1, acc.2 ++ r.2)

/-- The body of `process`'s outer loop over the accounts to scan: resolve the
account (a `None` result crashes at `GetSplitList`), fetch and filter its
transactions, and run every rule over them. -/
def accountStep (env : Env) (root : AccountTree) (da_rules : List (String × String))
    (year : Int) (month : Nat) (acc : Book × List (Nat × Option Nat)) (account_path : String) :
    Option (Book × List (Nat × Option Nat)) :=
  match account_lookup_by_path root account_path with
  | .error _ => none
  | .ok none => none
  | .ok (some account) =>
    let txns := get_transactions acc.1 account.id year month
    let txns2 := txns.filter (fun i => is_imbalanced env ((acc.1).getTxn i))
    da_rules.foldlM (ruleStep env root txns2) acc

/-- `process` (lines 148-157). -/
def process (env : Env) (root : AccountTree) (bk : Book) (rules : RulesConfig)
    (year : Int) (month : Nat) : Option (Book × List (Nat × Option Nat)) :=
  let da_rules := rules2darules rules.rulesMap
  rules.accountsToScan.foldlM (accountStep env root da_rules year month) (bk, [])

/-- Outcome of `main`'s session block (lines 168-173). `session.save()` is the
last statement *inside* the `with` block; the GnuCash `Session.__exit__`
(external library) ends/closes the session without saving, so on a failure
raised during `process` the block closes the session but the save is skipped. -/
structure MainResult where
  savedBook : Option Book
  saved : Bool
  closed : Bool
  failed : Bool
deriving DecidableEq

/-- The session part of `main` (lines 160-173): run `process`, then save on
normal completion; the session is closed on every exit. -/
def main' (env : Env) (root : AccountTree) (bk : Book) (rules : RulesConfig)
    (year : Int) (month : Nat) : MainResult :=
  match process env root bk rules year month with
  | some r => ⟨some r.1, true, true, false⟩
  | none => ⟨none, false, true, true⟩

/-- Spec-side path resolution, following the spec's words: "looking up each
colon-separated component in order, starting from root". -/
def resolvePathSpec : AccountTree → List String → Option AccountTree
  | a, [] => some a
  | a, n :: rest =>
    match lookup_by_name a n with
    | some c => resolvePathSpec c rest
    | none => none

/-- The reassignment events the rules loop produces, described declaratively:
for each rule in order, the scanned transactions whose description equals the
trigger, sent to the id the destination path resolves to. -/
def evtsFor (root : AccountTree) (bk : Book) (txns : List Nat)
    (rs : List (String × String)) : List (Nat × Option Nat) :=
  rs.flatMap (fun r =>
    (txns.filter (fun i => (bk.getTxn i).description == r.1)).map
      (fun i => (i, dstIdOf root r.2)))

/-! ### Order facts about the datetime model -/

theorem lexLt_total : ∀ (xs ys : List Int), xs.length = ys.length →
    (!lexLt xs ys) = (lexLt ys xs || decide (xs = ys))
  | [], [], _ => by simp [lexLt]
  | [], _ :: _, h => by simp at h
  | _ :: _, [], h => by simp at h
  | x :: xs, y :: ys, h => by
    have ih := lexLt_total xs ys (by simpa using h)
    simp only [lexLt, Bool.not_or, Bool.not_and]
    by_cases hlt : x < y
    · have h1 : ¬ y < x := by omega
      have h2 : ¬ (x :: xs = y :: ys) := by simp; intro hxy; omega
      have h3 : ¬ y = x := by omega
      simp [hlt, h1, h2, h3]
    · by_cases heq : x = y
      · subst heq
        have hx : ¬ x < x := lt_irrefl x
        simpa [hx, List.cons.injEq] using ih
      · have h1 : y < x := by omega
        have h2 : ¬ (x :: xs = y :: ys) := by simp; intro hxy; omega
        simp [hlt, h1, h2, heq]

theorem PyDateTime.eq_iff_key_eq {a b : PyDateTime} : a = b ↔ a.key = b.key := by
  cases a; cases b
  simp [PyDateTime.key, PyDateTime.mk.injEq]

theorem PyDateTime.not_ltb (a b : PyDateTime) : (!PyDateTime.ltb a b) = PyDateTime.geb a b := by
  unfold PyDateTime.geb PyDateTime.ltb
  rw [lexLt_total _ _ (by simp [PyDateTime.key])]
  congr 1
  have : (a == b) = decide (a = b) := rfl
  rw [this, decide_eq_decide]
  exact PyDateTime.eq_iff_key_eq.symm

theorem PyDateTime.not_geb (a b : PyDateTime) : (!PyDateTime.geb a b) = PyDateTime.ltb a b := by
  rw [← PyDateTime.not_ltb, Bool.not_not]

/-- Membership in `get_transactions`, unfolded. -/
theorem mem_get_transactions (bk : Book) (accId : Nat) (year : Int) (month : Nat) (i : Nat) :
    i ∈ get_transactions bk accId year month ↔
      ∃ s, (i, s) ∈ getSplitList bk accId ∧
        filter_out (bk.getTxn i).date year month = false := by
  unfold get_transactions
  simp only [List.mem_map, List.mem_filter]
  constructor
  · rintro ⟨⟨j, s⟩, ⟨hmem, hf⟩, rfl⟩
    exact ⟨s, hmem, by simpa using hf⟩
  · rintro ⟨s, hmem, hf⟩
    exact ⟨(i, s), ⟨hmem, by simpa using hf⟩, rfl⟩

/-- C3: `filter_out dt year month` is true exactly when `dt` is strictly
before the first instant of the requested month or at/after the first instant
of the following month (January of `year + 1` for month 12); consequently
`get_transactions` keeps exactly the transactions reachable from a split of
the account whose date lies within the calendar month, including its first
instant and excluding the first instant of the next month. -/
theorem claim_C3_month_filter (dt : PyDateTime) (bk : Book) (accId : Nat)
    (year : Int) (month : Nat) (i : Nat) (h1 : 1 ≤ month) (h2 : month ≤ 12) :
    (filter_out dt year month = true ↔
      (PyDateTime.ltb dt (pydatetime year month 1) = true ∨
       PyDateTime.geb dt
         (if month = 12 then pydatetime (year + 1) 1 1 else pydatetime year (month + 1) 1) = true)) ∧
    (i ∈ get_transactions bk accId year month ↔
      ∃ s, (i, s) ∈ getSplitList bk accId ∧
        PyDateTime.geb (bk.getTxn i).date (pydatetime year month 1) = true ∧
        PyDateTime.ltb (bk.getTxn i).date
          (if month = 12 then pydatetime (year + 1) 1 1 else pydatetime year (month + 1) 1) = true) := by
  have hfo : ∀ d : PyDateTime, filter_out d year month =
      (PyDateTime.ltb d (pydatetime year month 1) ||
       PyDateTime.geb d
         (if month = 12 then pydatetime (year + 1) 1 1 else pydatetime year (month + 1) 1)) := by
    intro d
    unfold filter_out
    by_cases hm : month = 12 <;> simp [hm]
  constructor
  · rw [hfo dt]
    simp
  · rw [mem_get_transactions]
    constructor
    · rintro ⟨s, hmem, hf⟩
      refine ⟨s, hmem, ?_, ?_⟩
      · have := congrArg (fun b => !b) (hfo (bk.getTxn i).date ▸ hf)
        rw [hfo (bk.getTxn i).date] at hf
        have hsplit := Bool.or_eq_false_iff.mp hf
        rw [← PyDateTime.not_ltb]
        simp [hsplit.1]
      · rw [hfo (bk.getTxn i).date] at hf
        have hsplit := Bool.or_eq_false_iff.mp hf
        rw [← PyDateTime.not_geb]
        simp [hsplit.2]
    · rintro ⟨s, hmem, hge, hlt⟩
      refine ⟨s, hmem, ?_⟩
      rw [hfo (bk.getTxn i).date]
      have e1 : PyDateTime.ltb (bk.getTxn i).date (pydatetime year month 1) = false := by
        have := PyDateTime.not_ltb (bk.getTxn i).date (pydatetime year month 1)
        rw [hge] at this
        simpa using congrArg (fun b => !b) this
      have e2 : PyDateTime.geb (bk.getTxn i).date
          (if month = 12 then pydatetime (year + 1) 1 1 else pydatetime year (month + 1) 1) = false := by
        have := PyDateTime.not_geb (bk.getTxn i).date
          (if month = 12 then pydatetime (year + 1) 1 1 else pydatetime year (month + 1) 1)
        rw [hlt] at this
        simpa using congrArg (fun b => !b) this
      simp [e1, e2]

/-- Fixture: a small ledger for concrete checks. -/
def rootW : AccountTree :=
  .node 0 "Root" [.node 1 "Bank" [], .node 2 "Imbalance-PLN" [],
    .node 3 "Expenses" [.node 4 "Food" []]]

/-- Fixture: account registry and a total price database. -/
def envW : Env :=
  ⟨fun i =>
      if i == 1 then ⟨"Bank", "PLN"⟩
      else if i == 2 then ⟨"Imbalance-PLN", "PLN"⟩
      else if i == 4 then ⟨"Food", "PLN"⟩
      else ⟨"Root", "PLN"⟩,
    fun _ _ _ => some ⟨1, 1⟩⟩

/-- Fixture: one imbalanced January 2026 transaction sitting in the Bank account. -/
def txnW : Txn :=
  ⟨⟨2026, 1, 15, 0, 0, 0, 0⟩, "BIEDRONKA", [⟨1, ⟨-5000, 100⟩⟩, ⟨2, ⟨5000, 100⟩⟩]⟩

def bookW : Book := ⟨[txnW]⟩

def rulesW : RulesConfig := ⟨["Bank"], [("Expenses:Food", ["BIEDRONKA"])]⟩

theorem claim_C3_witness :
    1 ≤ 1 ∧ (1 : Nat) ≤ 12 ∧
    (filter_out txnW.date 2026 1 = true ↔
      (PyDateTime.ltb txnW.date (pydatetime 2026 1 1) = true ∨
       PyDateTime.geb txnW.date
         (if (1 : Nat) = 12 then pydatetime (2026 + 1) 1 1 else pydatetime 2026 (1 + 1) 1) = true)) ∧
    ((0 : Nat) ∈ get_transactions bookW 1 2026 1 ↔
      ∃ s, ((0 : Nat), s) ∈ getSplitList bookW 1 ∧
        PyDateTime.geb (bookW.getTxn 0).date (pydatetime 2026 1 1) = true ∧
        PyDateTime.ltb (bookW.getTxn 0).date
          (if (1 : Nat) = 12 then pydatetime (2026 + 1) 1 1 else pydatetime 2026 (1 + 1) 1) = true) :=
  ⟨by decide, by decide,
    claim_C3_month_filter txnW.date bookW 1 2026 1 0 (by decide) (by decide)⟩

/-! ### Path lookup (C4) -/

theorem splitChars_ne_nil (sep : Char) : ∀ l : List Char, splitChars sep l ≠ []
  | [] => by simp [splitChars]
  | c :: cs => by
    simp only [splitChars]
    cases h : splitChars sep cs with
    | nil => simp
    | cons hd tl =>
      by_cases hc : c == sep <;> simp [hc]

theorem pySplit_ne_nil (s : String) (sep : Char) : pySplit s sep ≠ [] := by
  unfold pySplit
  simp [splitChars_ne_nil]

theorem resolve_lookup_aux : ∀ (cs : List String) (n : String) (root a : AccountTree),
    resolvePathSpec root (n :: cs) = some a →
    account_lookup_by_path_aux root (n :: cs) = .ok (some a)
  | [], n, root, a, h => by
    simp only [resolvePathSpec] at h
    cases hl : lookup_by_name root n with
    | none => rw [hl] at h; simp at h
    | some c =>
      rw [hl] at h
      simp only [resolvePathSpec] at h
      simp only [account_lookup_by_path_aux, hl]
      rw [h]
  | m :: cs', n, root, a, h => by
    simp only [resolvePathSpec] at h
    cases hl : lookup_by_name root n with
    | none => rw [hl] at h; simp at h
    | some c =>
      rw [hl] at h
      simp only [account_lookup_by_path_aux, hl]
      exact resolve_lookup_aux cs' m c a h

/-- C4: when every colon-separated component of the path names an existing
child at the corresponding depth (expressed by `resolvePathSpec`, which looks
up each component in order starting from the root), `account_lookup_by_path`
returns exactly the account so reached. -/
theorem claim_C4_path_lookup (root : AccountTree) (path : String) (a : AccountTree)
    (h : resolvePathSpec root (pySplit path ':') = some a) :
    account_lookup_by_path root path = .ok (some a) := by
  unfold account_lookup_by_path
  cases hcs : pySplit path ':' with
  | nil => exact absurd hcs (pySplit_ne_nil path ':')
  | cons n cs =>
    rw [hcs] at h
    exact resolve_lookup_aux cs n root a h

theorem claim_C4_witness :
    resolvePathSpec rootW (pySplit "Expenses:Food" ':') = some (.node 4 "Food" []) ∧
    account_lookup_by_path rootW "Expenses:Food" = .ok (some (.node 4 "Food" [])) :=
  ⟨rfl, claim_C4_path_lookup rootW "Expenses:Food" (.node 4 "Food" []) rfl⟩

/-! ### set_dst_account (C5, C2, C9) -/

/-- C5, counterexample: a transaction with an empty split list refutes the
claim as stated — `print_txn` (line 114) evaluates `txn.GetSplitList()[0]`
(line 89) and raises IndexError before the assertion at line 117 is ever
reached, so the failure at length 0 is not an assertion failure. -/
theorem claim_C5_counterexample :
    (⟨default, "empty", []⟩ : Txn).splits.length ≠ 2 ∧
    set_dst_account envW ⟨default, "empty", []⟩ none = .error .indexError ∧
    set_dst_account envW ⟨default, "empty", []⟩ none ≠ .error .assertFailed := by
  refine ⟨by decide, rfl, ?_⟩
  intro h
  have h2 : (Except.error SdaError.indexError : Except SdaError Txn) =
      Except.error SdaError.assertFailed := h
  exact SdaError.noConfusion (Except.error.inj h2)

/-- C5, amended: a transaction with an empty split list makes
`set_dst_account` fail fatally with the IndexError raised inside `print_txn`
(before the assertion); a nonempty split list whose length is not 2 makes
the assertion fail fatally; in both cases the failing call performs no
mutation (it returns no transaction); with exactly 2 splits neither the
indexing nor the assertion fails and reassignment proceeds (any later
failure is a different error). -/
theorem claim_C5_assert_amended (env : Env) (txn : Txn) (d : Option Nat) :
    (txn.splits.length = 0 → set_dst_account env txn d = .error .indexError) ∧
    (txn.splits.length ≠ 0 → txn.splits.length ≠ 2 →
      set_dst_account env txn d = .error .assertFailed) ∧
    (txn.splits.length = 2 →
      set_dst_account env txn d ≠ .error .assertFailed ∧
      set_dst_account env txn d ≠ .error .indexError) := by
  refine ⟨?_, ?_, ?_⟩
  · intro h
    unfold set_dst_account
    match hs : txn.splits with
    | [] => rfl
    | [_] => rw [hs] at h; simp at h
    | [_, _] => rw [hs] at h; simp at h
    | _ :: _ :: _ :: _ => rw [hs] at h; simp at h
  · intro h0 h2
    unfold set_dst_account
    match hs : txn.splits with
    | [] => rw [hs] at h0; simp at h0
    | [_] => rfl
    | [_, _] => rw [hs] at h2; simp at h2
    | _ :: _ :: _ :: _ => rfl
  · intro h
    match hs : txn.splits with
    | [] => rw [hs] at h; simp at h
    | [_] => rw [hs] at h; simp at h
    | _ :: _ :: _ :: _ => rw [hs] at h; simp at h
    | [s0, s1] =>
      unfold set_dst_account
      rw [hs]
      cases d with
      | none => exact ⟨by simp, by simp⟩
      | some dstAcc =>
        refine ⟨?_, ?_⟩
        all_goals
          intro hcontra
          dsimp only at hcontra
          repeat' split at hcontra
          all_goals simp at hcontra

theorem claim_C5_witness :
    ((⟨default, "empty", []⟩ : Txn).splits.length = 0 ∧
      set_dst_account envW ⟨default, "empty", []⟩ none = .error .indexError) ∧
    ((⟨default, "three", [⟨1, ⟨1, 1⟩⟩, ⟨2, ⟨1, 1⟩⟩, ⟨3, ⟨1, 1⟩⟩]⟩ : Txn).splits.length ≠ 0 ∧
      (⟨default, "three", [⟨1, ⟨1, 1⟩⟩, ⟨2, ⟨1, 1⟩⟩, ⟨3, ⟨1, 1⟩⟩]⟩ : Txn).splits.length ≠ 2 ∧
      set_dst_account envW ⟨default, "three", [⟨1, ⟨1, 1⟩⟩, ⟨2, ⟨1, 1⟩⟩, ⟨3, ⟨1, 1⟩⟩]⟩ none =
        .error .assertFailed) ∧
    (txnW.splits.length = 2 ∧
      (set_dst_account envW txnW none ≠ .error .assertFailed ∧
       set_dst_account envW txnW none ≠ .error .indexError)) :=
  ⟨⟨by decide, (claim_C5_assert_amended envW ⟨default, "empty", []⟩ none).1 (by decide)⟩,
   ⟨by decide, by decide,
    (claim_C5_assert_amended envW ⟨default, "three", [⟨1, ⟨1, 1⟩⟩, ⟨2, ⟨1, 1⟩⟩, ⟨3, ⟨1, 1⟩⟩]⟩
        none).2.1 (by decide) (by decide)⟩,
   ⟨by decide, (claim_C5_assert_amended envW txnW none).2.2 (by decide)⟩⟩

/-- `set_dst_account` when the source and destination commodities agree:
the chosen split only changes account, its amount is untouched. -/
theorem set_dst_account_eqc (env : Env) (txn : Txn) (s0 s1 : Split) (dstAcc : Nat)
    (hs : txn.splits = [s0, s1])
    (he : accounts_eq_commodities env
      (if is_split_imbalanced env s0 then s1 else s0).accountId dstAcc = true) :
    set_dst_account env txn (some dstAcc) = .ok { txn with splits :=
      (if is_split_imbalanced env s0 then [{ s0 with accountId := dstAcc }, s1]
       else [s0, { s1 with accountId := dstAcc }]) } := by
  unfold set_dst_account
  rw [hs]
  cases hf : is_split_imbalanced env s0
  all_goals simp [hf] at he ⊢
  all_goals simp [he]

/-- `set_dst_account` when the commodities differ and the price database has
an entry for (source commodity, destination commodity) at the transaction's
date: the chosen split moves to the destination account and its amount
becomes `GncNumeric(int(amount * rate * 1000), 1000)` with `rate` the value
of that price. -/
theorem set_dst_account_neqc (env : Env) (txn : Txn) (s0 s1 : Split) (dstAcc : Nat) (p : Price)
    (hs : txn.splits = [s0, s1])
    (he : accounts_eq_commodities env
      (if is_split_imbalanced env s0 then s1 else s0).accountId dstAcc = false)
    (hp : env.lookup_nearest_in_time64
        (env.accounts (if is_split_imbalanced env s0 then s1 else s0).accountId).commodity
        (env.accounts dstAcc).commodity txn.date = some p) :
    set_dst_account env txn (some dstAcc) = .ok { txn with splits :=
      (if is_split_imbalanced env s0 then
        [⟨dstAcc, ⟨pyInt (GncNumeric.toRat s0.amount * GncNumeric.toRat ⟨p.num, p.denom⟩ * 1000), 1000⟩⟩, s1]
       else [s0, ⟨dstAcc, ⟨pyInt (GncNumeric.toRat s1.amount * GncNumeric.toRat ⟨p.num, p.denom⟩ * 1000), 1000⟩⟩]) } := by
  have hger : get_exchange_rate env
      (if is_split_imbalanced env s0 then s1 else s0).accountId dstAcc txn.date
      = some (GncNumeric.toRat ⟨p.num, p.denom⟩) := by
    unfold get_exchange_rate
    rw [hp]
  unfold set_dst_account
  rw [hs]
  cases hf : is_split_imbalanced env s0
  all_goals simp [hf] at he hger ⊢
  all_goals simp [he, hger]

/-- `set_dst_account` when the commodities differ and the price is missing:
the failure propagates. -/
theorem set_dst_account_noprice (env : Env) (txn : Txn) (s0 s1 : Split) (dstAcc : Nat)
    (hs : txn.splits = [s0, s1])
    (he : accounts_eq_commodities env
      (if is_split_imbalanced env s0 then s1 else s0).accountId dstAcc = false)
    (hp : env.lookup_nearest_in_time64
        (env.accounts (if is_split_imbalanced env s0 then s1 else s0).accountId).commodity
        (env.accounts dstAcc).commodity txn.date = none) :
    set_dst_account env txn (some dstAcc) = .error .missingPrice := by
  have hger : get_exchange_rate env
      (if is_split_imbalanced env s0 then s1 else s0).accountId dstAcc txn.date = none := by
    unfold get_exchange_rate
    rw [hp]
  unfold set_dst_account
  rw [hs]
  cases hf : is_split_imbalanced env s0
  all_goals simp [hf] at he hger ⊢
  all_goals simp [he, hger]

/-- C2: for a reassigned two-split transaction, `set_dst_account` writes the
destination split's amount iff the source account's commodity mnemonic
differs from the destination account's (first conjunct: equal mnemonics
leave the amount untouched); and when it writes it, the exchange rate used is
the value of the price returned by the price database's nearest-in-time
lookup for (source commodity, destination commodity) at the transaction's
date (second conjunct). -/
theorem claim_C2_conversion (env : Env) (txn : Txn) (s0 s1 : Split) (dstAcc : Nat)
    (hs : txn.splits = [s0, s1]) :
    (accounts_eq_commodities env
        (if is_split_imbalanced env s0 then s1 else s0).accountId dstAcc = true →
      set_dst_account env txn (some dstAcc) = .ok { txn with splits :=
        (if is_split_imbalanced env s0 then [{ s0 with accountId := dstAcc }, s1]
         else [s0, { s1 with accountId := dstAcc }]) }) ∧
    (accounts_eq_commodities env
        (if is_split_imbalanced env s0 then s1 else s0).accountId dstAcc = false →
      ∀ p : Price, env.lookup_nearest_in_time64
          (env.accounts (if is_split_imbalanced env s0 then s1 else s0).accountId).commodity
          (env.accounts dstAcc).commodity txn.date = some p →
        set_dst_account env txn (some dstAcc) = .ok { txn with splits :=
          (if is_split_imbalanced env s0 then
            [⟨dstAcc, ⟨pyInt (GncNumeric.toRat s0.amount * GncNumeric.toRat ⟨p.num, p.denom⟩ * 1000), 1000⟩⟩, s1]
           else
            [s0, ⟨dstAcc, ⟨pyInt (GncNumeric.toRat s1.amount * GncNumeric.toRat ⟨p.num, p.denom⟩ * 1000), 1000⟩⟩]) }) :=
  ⟨fun he => set_dst_account_eqc env txn s0 s1 dstAcc hs he,
   fun he p hp => set_dst_account_neqc env txn s0 s1 dstAcc p hs he hp⟩

/-- Fixture: the two splits of `txnW`. -/
def sBank : Split := ⟨1, ⟨-5000, 100⟩⟩

def sImb : Split := ⟨2, ⟨5000, 100⟩⟩

/-- Fixture: like `envW` but account 5 is a USD account, with a price of 4.2. -/
def envW2 : Env :=
  ⟨fun i =>
      if i == 1 then ⟨"Bank", "PLN"⟩
      else if i == 2 then ⟨"Imbalance-PLN", "PLN"⟩
      else if i == 5 then ⟨"Travel", "USD"⟩
      else ⟨"Root", "PLN"⟩,
    fun _ _ _ => some ⟨42, 10⟩⟩

theorem claim_C2_witness :
    txnW.splits = [sBank, sImb] ∧
    accounts_eq_commodities envW2
      (if is_split_imbalanced envW2 sBank then sImb else sBank).accountId 5 = false ∧
    envW2.lookup_nearest_in_time64
      (envW2.accounts (if is_split_imbalanced envW2 sBank then sImb else sBank).accountId).commodity
      (envW2.accounts 5).commodity txnW.date = some ⟨42, 10⟩ ∧
    set_dst_account envW2 txnW (some 5) = .ok { txnW with splits :=
      (if is_split_imbalanced envW2 sBank then
        [⟨5, ⟨pyInt (GncNumeric.toRat sBank.amount * GncNumeric.toRat ⟨42, 10⟩ * 1000), 1000⟩⟩, sImb]
       else
        [sBank, ⟨5, ⟨pyInt (GncNumeric.toRat sImb.amount * GncNumeric.toRat ⟨42, 10⟩ * 1000), 1000⟩⟩]) } :=
  ⟨rfl, by decide, rfl,
    (claim_C2_conversion envW2 txnW sBank sImb 5 rfl).2 (by decide) ⟨42, 10⟩ rfl⟩

/-- C9: a successful `set_dst_account` call on a two-split transaction changes
only the dispatched split (`splits[0]` if it is imbalanced, else `splits[1]`):
the other split appears unchanged in its position, the date and description
are unchanged, the reassigned split lands in the destination account, and its
amount is unchanged whenever the commodities agree. -/
theorem claim_C9_frame (env : Env) (txn t' : Txn) (s0 s1 : Split) (dstAcc : Nat)
    (hs : txn.splits = [s0, s1])
    (hok : set_dst_account env txn (some dstAcc) = .ok t') :
    t'.date = txn.date ∧ t'.description = txn.description ∧
    ∃ dst' : Split, dst'.accountId = dstAcc ∧
      t'.splits = (if is_split_imbalanced env s0 then [dst', s1] else [s0, dst']) ∧
      (accounts_eq_commodities env
          (if is_split_imbalanced env s0 then s1 else s0).accountId dstAcc = true →
        dst'.amount = (if is_split_imbalanced env s0 then s0 else s1).amount) := by
  cases hc : accounts_eq_commodities env
      (if is_split_imbalanced env s0 then s1 else s0).accountId dstAcc with
  | true =>
    rw [set_dst_account_eqc env txn s0 s1 dstAcc hs hc] at hok
    have h := Except.ok.inj hok
    subst h
    refine ⟨rfl, rfl,
      (if is_split_imbalanced env s0 then { s0 with accountId := dstAcc }
       else { s1 with accountId := dstAcc }), ?_, ?_, ?_⟩
    · cases hf : is_split_imbalanced env s0 <;> simp [hf]
    · cases hf : is_split_imbalanced env s0 <;> simp [hf]
    · intro _
      cases hf : is_split_imbalanced env s0 <;> simp [hf]
  | false =>
    cases hp : env.lookup_nearest_in_time64
        (env.accounts (if is_split_imbalanced env s0 then s1 else s0).accountId).commodity
        (env.accounts dstAcc).commodity txn.date with
    | none =>
      rw [set_dst_account_noprice env txn s0 s1 dstAcc hs hc hp] at hok
      simp at hok
    | some p =>
      rw [set_dst_account_neqc env txn s0 s1 dstAcc p hs hc hp] at hok
      have h := Except.ok.inj hok
      subst h
      refine ⟨rfl, rfl,
        (if is_split_imbalanced env s0 then
          (⟨dstAcc, ⟨pyInt (GncNumeric.toRat s0.amount * GncNumeric.toRat ⟨p.num, p.denom⟩ * 1000), 1000⟩⟩ : Split)
         else
          ⟨dstAcc, ⟨pyInt (GncNumeric.toRat s1.amount * GncNumeric.toRat ⟨p.num, p.denom⟩ * 1000), 1000⟩⟩), ?_, ?_, ?_⟩
      · cases hf : is_split_imbalanced env s0 <;> simp [hf]
      · cases hf : is_split_imbalanced env s0 <;> simp [hf]
      · intro he
        exact absurd he (by simp [hc])

/-- Fixture: `txnW` after its imbalance split is reassigned to account 4. -/
def txnW4 : Txn := { txnW with splits := [sBank, { sImb with accountId := 4 }] }

theorem claim_C9_witness :
    txnW.splits = [sBank, sImb] ∧
    set_dst_account envW txnW (some 4) = .ok txnW4 ∧
    (txnW4.date = txnW.date ∧ txnW4.description = txnW.description ∧
      ∃ dst' : Split, dst'.accountId = 4 ∧
        txnW4.splits = (if is_split_imbalanced envW sBank then [dst', sImb] else [sBank, dst']) ∧
        (accounts_eq_commodities envW
            (if is_split_imbalanced envW sBank then sImb else sBank).accountId 4 = true →
          dst'.amount = (if is_split_imbalanced envW sBank then sBank else sImb).amount)) :=
  ⟨rfl, rfl, claim_C9_frame envW txnW txnW4 sBank sImb 4 rfl rfl⟩


/-! ### Python dict semantics of rules2darules (C8, C10) -/

def dictKeys (d : List (String × String)) : List String := d.map (fun p => p.1)

theorem pyDictLookup_nil (k : String) : pyDictLookup [] k = none := rfl

theorem pyDictLookup_cons (q : String × String) (d : List (String × String)) (k : String) :
    pyDictLookup (q :: d) k = if q.1 == k then some q.2 else pyDictLookup d k := by
  unfold pyDictLookup
  cases h : (q.1 == k) <;> simp [List.find?_cons, h]

theorem pyDictLookup_map_update (d : List (String × String)) (k v : String) :
    pyDictLookup (d.map (fun p => if p.1 == k then (k, v) else p)) k =
      if d.any (fun p => p.1 == k) then some v else none := by
  induction d with
  | nil => simp [pyDictLookup]
  | cons q d ih =>
    rw [List.map_cons, List.any_cons]
    by_cases hq : q.1 = k
    · have hb : (q.1 == k) = true := by simp [hq]
      rw [if_pos hb, pyDictLookup_cons]
      simp [hb]
    · have hb : (q.1 == k) = false := by simp [hq]
      rw [hb, if_neg (by simp), pyDictLookup_cons, if_neg (by simp [hq]), ih, Bool.false_or]

theorem pyDictLookup_map_update_ne (d : List (String × String)) (k v k' : String)
    (hne : k' ≠ k) :
    pyDictLookup (d.map (fun p => if p.1 == k then (k, v) else p)) k' = pyDictLookup d k' := by
  induction d with
  | nil => simp
  | cons q d ih =>
    rw [List.map_cons]
    by_cases hq : q.1 = k
    · rw [if_pos (by simp [hq]), pyDictLookup_cons, pyDictLookup_cons,
        if_neg (by simp; exact fun h => hne h.symm), if_neg (by simp [hq]; exact fun h => hne h.symm),
        ih]
    · rw [if_neg (by simp [hq]), pyDictLookup_cons, pyDictLookup_cons, ih]

theorem pyDictLookup_insert_self (d : List (String × String)) (k v : String) :
    pyDictLookup (pyDictInsert d k v) k = some v := by
  unfold pyDictInsert
  cases h : d.any (fun p => p.1 == k) with
  | true =>
    rw [if_pos rfl, pyDictLookup_map_update, h, if_pos rfl]
  | false =>
    rw [if_neg (by simp)]
    unfold pyDictLookup
    rw [List.find?_append]
    have hnone : d.find? (fun p => p.1 == k) = none := by
      rw [List.find?_eq_none]
      exact List.any_eq_false.mp h
    simp [hnone]

theorem pyDictLookup_insert_ne (d : List (String × String)) (k v k' : String) (hne : k' ≠ k) :
    pyDictLookup (pyDictInsert d k v) k' = pyDictLookup d k' := by
  unfold pyDictInsert
  cases h : d.any (fun p => p.1 == k) with
  | true =>
    rw [if_pos rfl]
    exact pyDictLookup_map_update_ne d k v k' hne
  | false =>
    rw [if_neg (by simp)]
    unfold pyDictLookup
    rw [List.find?_append]
    have h1 : ((k, v).1 == k') = false := by simp; exact fun hc => hne hc.symm
    simp [h1]

theorem dictKeys_insert (d : List (String × String)) (k v : String) :
    dictKeys (pyDictInsert d k v) =
      if d.any (fun p => p.1 == k) then dictKeys d else dictKeys d ++ [k] := by
  unfold pyDictInsert dictKeys
  cases h : d.any (fun p => p.1 == k) with
  | true =>
    rw [if_pos rfl, if_pos rfl, List.map_map]
    apply List.map_congr_left
    intro p _
    by_cases hp : p.1 = k <;> simp [hp]
  | false =>
    rw [if_neg (by simp [h]), if_neg (by simp [h])]
    simp

theorem dictKeys_insert_nodup (d : List (String × String)) (k v : String)
    (h : (dictKeys d).Nodup) : (dictKeys (pyDictInsert d k v)).Nodup := by
  rw [dictKeys_insert]
  cases ha : d.any (fun p => p.1 == k) with
  | true => rw [if_pos rfl]; exact h
  | false =>
    rw [if_neg (by simp)]
    rw [List.nodup_append]
    refine ⟨h, List.nodup_singleton k, ?_⟩
    intro x hx hk
    simp only [List.mem_singleton] at hk
    rcases List.mem_map.mp hx with ⟨p, hp, rfl⟩
    have h2 := List.any_eq_false.mp ha p hp
    simp only [beq_iff_eq] at h2
    exact h2 hk

theorem innerFold_lookup (descs : List String) (target t : String) :
    ∀ d, pyDictLookup (descs.foldl (fun d key => pyDictInsert d key target) d) t =
      if t ∈ descs then some target else pyDictLookup d t := by
  induction descs with
  | nil => intro d; simp
  | cons kk ks ih =>
    intro d
    rw [List.foldl_cons, ih]
    by_cases ht : t ∈ ks
    · rw [if_pos ht, if_pos (List.mem_cons_of_mem kk ht)]
    · rw [if_neg ht]
      by_cases htk : t = kk
      · subst htk
        rw [pyDictLookup_insert_self, if_pos (List.mem_cons_self t ks)]
      · rw [pyDictLookup_insert_ne _ _ _ _ htk, if_neg (by simp [htk, ht])]

theorem rules2darules_fold_lookup (config : List (String × List String)) (t : String) :
    ∀ d, pyDictLookup
        (config.foldl (fun d p => p.2.foldl (fun d key => pyDictInsert d key p.1) d) d) t =
      match config.reverse.find? (fun p => p.2.contains t) with
      | some p => some p.1
      | none => pyDictLookup d t := by
  induction config with
  | nil => intro d; simp
  | cons c cs ih =>
    intro d
    rw [List.foldl_cons, ih, List.reverse_cons, List.find?_append]
    cases hf : cs.reverse.find? (fun p => p.2.contains t) with
    | some p => rfl
    | none =>
      rw [Option.none_or]
      cases hc : (c.2.contains t) with
      | true =>
        have hfc : List.find? (fun p => p.2.contains t) [c] = some c :=
          List.find?_cons_of_pos _ hc
        rw [hfc, innerFold_lookup, if_pos (List.elem_iff.mp (hc : List.elem t c.2 = true))]
      | false =>
        have hfc : List.find? (fun p => p.2.contains t) [c] = none := by
          rw [List.find?_eq_none]
          intro x hx hcc
          rw [List.mem_singleton] at hx
          have hcc' : c.2.contains t = true := by rw [← hx]; exact hcc
          rw [hcc'] at hc
          cases hc
        rw [hfc, innerFold_lookup,
          if_neg (fun hmem => by
            have hch : c.2.contains t = true := List.elem_iff.mpr hmem
            rw [hch] at hc
            cases hc)]

theorem rules2darules_lookup (config : List (String × List String)) (t : String) :
    pyDictLookup (rules2darules config) t =
      (config.reverse.find? (fun p => p.2.contains t)).map (fun p => p.1) := by
  unfold rules2darules
  rw [rules2darules_fold_lookup]
  cases config.reverse.find? (fun p => p.2.contains t) <;> simp [pyDictLookup]

theorem innerFold_keys_nodup (descs : List String) (target : String) :
    ∀ d, (dictKeys d).Nodup →
      (dictKeys (descs.foldl (fun d key => pyDictInsert d key target) d)).Nodup := by
  induction descs with
  | nil => intro d h; simpa using h
  | cons kk ks ih =>
    intro d h
    rw [List.foldl_cons]
    exact ih _ (dictKeys_insert_nodup d kk target h)

theorem rules2darules_fold_keys_nodup (config : List (String × List String)) :
    ∀ d, (dictKeys d).Nodup →
      (dictKeys (config.foldl (fun d p => p.2.foldl (fun d key => pyDictInsert d key p.1) d) d)).Nodup := by
  induction config with
  | nil => intro d h; simpa using h
  | cons c cs ih =>
    intro d h
    rw [List.foldl_cons]
    exact ih _ (innerFold_keys_nodup c.2 c.1 d h)

theorem rules2darules_keys_nodup (config : List (String × List String)) :
    (dictKeys (rules2darules config)).Nodup := by
  unfold rules2darules
  exact rules2darules_fold_keys_nodup config [] (by simp [dictKeys])

theorem pyDictLookup_eq_some_of_mem (d : List (String × String)) (hnd : (dictKeys d).Nodup)
    {k v : String} (hm : (k, v) ∈ d) : pyDictLookup d k = some v := by
  induction d with
  | nil => cases hm
  | cons q d ih =>
    rw [pyDictLookup_cons]
    unfold dictKeys at hnd
    rw [List.map_cons, List.nodup_cons] at hnd
    rcases List.mem_cons.mp hm with heq | hm'
    · rw [← heq]
      simp
    · have hq : (q.1 == k) = false := by
        rw [beq_eq_false_iff_ne]
        intro hc
        exact hnd.1 (hc ▸ List.mem_map.mpr ⟨(k, v), hm', rfl⟩)
      rw [hq, if_neg (by simp)]
      exact ih hnd.2 hm'

theorem mem_of_pyDictLookup_eq_some (d : List (String × String)) {k v : String}
    (h : pyDictLookup d k = some v) : (k, v) ∈ d := by
  unfold pyDictLookup at h
  cases hf : d.find? (fun p => p.1 == k) with
  | none => rw [hf] at h; cases h
  | some p =>
    rw [hf] at h
    simp only [Option.map_some'] at h
    have hp := List.mem_of_find?_eq_some hf
    have hpk := List.find?_some hf
    simp only [beq_iff_eq] at hpk
    have hv : p.2 = v := by injection h
    have : (k, v) = p := by
      cases p
      simp only [Prod.mk.injEq]
      exact ⟨hpk.symm, hv.symm⟩
    rw [this]
    exact hp

theorem assoc_keys_unique {l : List (String × String)} (hnd : (l.map Prod.fst).Nodup)
    {a b c : String} (h1 : (a, b) ∈ l) (h2 : (a, c) ∈ l) : b = c := by
  induction l with
  | nil => cases h1
  | cons q l ih =>
    rw [List.map_cons, List.nodup_cons] at hnd
    rcases List.mem_cons.mp h1 with he1 | hm1 <;> rcases List.mem_cons.mp h2 with he2 | hm2
    · rw [← he1] at he2; injection he2 with _ hbc; exact hbc.symm ▸ rfl
    · exfalso
      apply hnd.1
      have : q.1 = a := by rw [← he1]
      rw [this]
      exact List.mem_map.mpr ⟨(a, c), hm2, rfl⟩
    · exfalso
      apply hnd.1
      have : q.1 = a := by rw [← he2]
      rw [this]
      exact List.mem_map.mpr ⟨(a, b), hm1, rfl⟩
    · exact ih hnd.2 hm1 hm2

theorem mem_cfgPairs {config : List (String × List String)} {t v : String} :
    (t, v) ∈ cfgPairs config ↔ ∃ p ∈ config, p.1 = v ∧ t ∈ p.2 := by
  unfold cfgPairs
  rw [List.mem_flatMap]
  constructor
  · rintro ⟨p, hp, hm⟩
    rcases List.mem_map.mp hm with ⟨dd, hdd, heq⟩
    injection heq with h1 h2
    exact ⟨p, hp, h2.symm ▸ rfl, h1 ▸ hdd⟩
  · rintro ⟨p, hp, hv, ht⟩
    exact ⟨p, hp, List.mem_map.mpr ⟨t, ht, by rw [hv]⟩⟩

/-- C10: when the same trigger appears under more than one destination in the
configuration, `rules2darules` maps it to the destination of its *last*
occurrence in iteration order (`find?` over the reversed configuration),
so exactly one destination is ever applied per trigger. -/
theorem claim_C10_overwrite (config : List (String × List String)) (t : String)
    (hdup : 2 ≤ (config.filter (fun p => p.2.contains t)).length) :
    ∃ p, config.reverse.find? (fun q => q.2.contains t) = some p ∧
      pyDictLookup (rules2darules config) t = some p.1 := by
  have hpos : 0 < (config.filter (fun p => p.2.contains t)).length := by omega
  obtain ⟨x, hx⟩ := List.exists_mem_of_length_pos hpos
  have hx' := List.mem_filter.mp hx
  have hsome : (config.reverse.find? (fun q => q.2.contains t)).isSome := by
    rw [List.find?_isSome]
    exact ⟨x, List.mem_reverse.mpr hx'.1, hx'.2⟩
  obtain ⟨p, hp⟩ := Option.isSome_iff_exists.mp hsome
  refine ⟨p, hp, ?_⟩
  rw [rules2darules_lookup, hp]
  rfl

theorem claim_C10_witness :
    2 ≤ ([("A", ["t"]), ("B", ["t"])].filter (fun p => p.2.contains "t")).length ∧
    ∃ p, [("A", ["t"]), ("B", ["t"])].reverse.find? (fun q => q.2.contains "t") = some p ∧
      pyDictLookup (rules2darules [("A", ["t"]), ("B", ["t"])]) "t" = some p.1 :=
  ⟨by decide, claim_C10_overwrite [("A", ["t"]), ("B", ["t"])] "t" (by decide)⟩

/-- C8, counterexample: with the trigger "t" listed under destination "A" and
then under destination "B", the (destination, trigger) pair ("A", "t") does
not yield the entry t → A in the output — the later destination overwrote it,
so the claim as stated fails on this input. -/
theorem claim_C8_counterexample :
    ¬ (pyDictLookup (rules2darules [("A", ["t"]), ("B", ["t"])]) "t" = some "A") := by
  decide

/-- C8, amended: provided each trigger appears under only one destination
(the uniqueness the spec itself notes is assumed but unenforced), every
(destination, trigger) pair of the configuration yields the entry
trigger → destination in `rules2darules`'s output, and the output contains
no other entries. -/
theorem claim_C8_amended (config : List (String × List String))
    (hnd : ((cfgPairs config).map Prod.fst).Nodup) :
    (∀ pr ∈ cfgPairs config, pyDictLookup (rules2darules config) pr.1 = some pr.2) ∧
    (∀ t v, pyDictLookup (rules2darules config) t = some v → (t, v) ∈ cfgPairs config) := by
  constructor
  · rintro ⟨t, v⟩ hm
    obtain ⟨q, hqmem, hqv, hqt⟩ := mem_cfgPairs.mp hm
    have hsome : (config.reverse.find? (fun r => r.2.contains t)).isSome := by
      rw [List.find?_isSome]
      exact ⟨q, List.mem_reverse.mpr hqmem, List.elem_iff.mpr hqt⟩
    obtain ⟨p, hp⟩ := Option.isSome_iff_exists.mp hsome
    rw [rules2darules_lookup, hp]
    have hpmem : p ∈ config := List.mem_reverse.mp (List.mem_of_find?_eq_some hp)
    have hpt0 := List.find?_some hp
    have hpt1 : List.elem t p.2 = true := hpt0
    have hpt : t ∈ p.2 := List.elem_iff.mp hpt1
    have h1 : (t, p.1) ∈ cfgPairs config := mem_cfgPairs.mpr ⟨p, hpmem, rfl, hpt⟩
    have h2 : (t, q.1) ∈ cfgPairs config := mem_cfgPairs.mpr ⟨q, hqmem, rfl, hqt⟩
    have hq1 := assoc_keys_unique hnd h1 h2
    simp only [Option.map_some']
    rw [hq1, hqv]
  · intro t v h
    rw [rules2darules_lookup] at h
    cases hf : config.reverse.find? (fun r => r.2.contains t) with
    | none => rw [hf] at h; cases h
    | some p =>
      rw [hf] at h
      simp only [Option.map_some'] at h
      have hv : p.1 = v := by injection h
      have hft0 := List.find?_some hf
      have hft1 : List.elem t p.2 = true := hft0
      exact mem_cfgPairs.mpr ⟨p, List.mem_reverse.mp (List.mem_of_find?_eq_some hf), hv,
        List.elem_iff.mp hft1⟩

theorem claim_C8_witness :
    ((cfgPairs [("A", ["t1"]), ("B", ["t2"])]).map Prod.fst).Nodup ∧
    ((∀ pr ∈ cfgPairs [("A", ["t1"]), ("B", ["t2"])],
        pyDictLookup (rules2darules [("A", ["t1"]), ("B", ["t2"])]) pr.1 = some pr.2) ∧
      (∀ t v, pyDictLookup (rules2darules [("A", ["t1"]), ("B", ["t2"])]) t = some v →
        (t, v) ∈ cfgPairs [("A", ["t1"]), ("B", ["t2"])])) :=
  ⟨by decide, claim_C8_amended [("A", ["t1"]), ("B", ["t2"])] (by decide)⟩

/-! ### Session block and failure propagation (C6, C7) -/

/-- C6, counterexample: a run whose processing fails (here: the scanned
account path does not resolve) exits the session block with the session
closed but the ledger *not* saved — `session.save()` is the last statement
inside the block, so failing exits skip it.  This refutes the claim that
save-and-close happens on every exit. -/
theorem claim_C6_counterexample :
    process envW rootW bookW ⟨["Missing"], [("Expenses:Food", ["BIEDRONKA"])]⟩ 2026 1 = none ∧
    main' envW rootW bookW ⟨["Missing"], [("Expenses:Food", ["BIEDRONKA"])]⟩ 2026 1 =
      ⟨none, false, true, true⟩ := by
  decide

/-- C6, amended: on every exit of the session block the session is closed,
and the ledger is saved exactly on the normal (non-failing) exits; a failure
raised during `process` closes the session without saving. -/
theorem claim_C6_session (env : Env) (root : AccountTree) (bk : Book) (rules : RulesConfig)
    (year : Int) (month : Nat) :
    (main' env root bk rules year month).closed = true ∧
    ((main' env root bk rules year month).saved = true ↔
      ∃ r, process env root bk rules year month = some r) ∧
    ((main' env root bk rules year month).failed = true ↔
      process env root bk rules year month = none) := by
  unfold main'
  cases h : process env root bk rules year month <;> simp

theorem foldlM_none_of_mem {α σ : Type} (l : List α) (f : σ → α → Option σ) (x : α)
    (hx : x ∈ l) (hf : ∀ s, f s x = none) : ∀ s, l.foldlM f s = none := by
  induction l with
  | nil => cases hx
  | cons y ys ih =>
    intro s
    rw [List.foldlM_cons]
    rcases List.mem_cons.mp hx with rfl | hmem
    · rw [hf s]
      rfl
    · cases h : f s y with
      | none => rfl
      | some s' =>
        exact ih hmem s'

theorem accountStep_none (env : Env) (root : AccountTree) (da : List (String × String))
    (year : Int) (month : Nat) (p : String) (h : lookupFound root p = false) :
    ∀ s, accountStep env root da year month s p = none := by
  intro s
  unfold accountStep
  unfold lookupFound at h
  cases hl : account_lookup_by_path root p with
  | error e => rfl
  | ok oa =>
    cases oa with
    | none => rfl
    | some a =>
      rw [hl] at h
      simp at h

/-- C7, counterexample: an input with a *missing account* — the final
component of a rule's destination path does not exist — whose triggers match
no transaction completes without any failure: the lookup returns `None`,
`apply_rule` has nothing to reassign, and the run saves normally.  So not
every input with a missing account fails. -/
theorem claim_C7_counterexample :
    lookupFound rootW "Expenses:Missing" = false ∧
    main' envW rootW bookW ⟨["Bank"], [("Expenses:Missing", ["NOMATCH"])]⟩ 2026 1 =
      ⟨some bookW, true, true, false⟩ := by
  decide

/-- C7, amended: failures do propagate uncaught wherever they arise:
a scanned account path that is malformed or names a missing account makes
`process` fail (conjunct 1); a missing price entry makes `set_dst_account`
fail (conjunct 2); and a `process` failure propagates out of `main`'s session
block, leaving the ledger unsaved and the run failed (conjunct 3).  The one
exception (see the counterexample) is a rule destination path whose final
component is missing and whose triggers match nothing: it is passed along as
`None` and never used, so the run completes. -/
theorem claim_C7_uncaught (env : Env) (root : AccountTree) (bk : Book) (rules : RulesConfig)
    (year : Int) (month : Nat) :
    (∀ p ∈ rules.accountsToScan, lookupFound root p = false →
      process env root bk rules year month = none) ∧
    (∀ (txn : Txn) (s0 s1 : Split) (dstAcc : Nat), txn.splits = [s0, s1] →
      accounts_eq_commodities env
        (if is_split_imbalanced env s0 then s1 else s0).accountId dstAcc = false →
      env.lookup_nearest_in_time64
        (env.accounts (if is_split_imbalanced env s0 then s1 else s0).accountId).commodity
        (env.accounts dstAcc).commodity txn.date = none →
      set_dst_account env txn (some dstAcc) = .error .missingPrice) ∧
    (process env root bk rules year month = none →
      main' env root bk rules year month = ⟨none, false, true, true⟩) := by
  refine ⟨?_, ?_, ?_⟩
  · intro p hp hlf
    unfold process
    exact foldlM_none_of_mem rules.accountsToScan _ p hp
      (accountStep_none env root (rules2darules rules.rulesMap) year month p hlf) (bk, [])
  · intro txn s0 s1 dstAcc hs he hp
    exact set_dst_account_noprice env txn s0 s1 dstAcc hs he hp
  · intro h
    unfold main'
    rw [h]

/-- Fixture: a price database with no entries at all. -/
def envWnp : Env := ⟨envW2.accounts, fun _ _ _ => none⟩

theorem claim_C7_witness :
    ("Missing" ∈ (⟨["Missing"], []⟩ : RulesConfig).accountsToScan ∧
      lookupFound rootW "Missing" = false ∧
      process envW rootW bookW ⟨["Missing"], []⟩ 2026 1 = none ∧
      main' envW rootW bookW ⟨["Missing"], []⟩ 2026 1 = ⟨none, false, true, true⟩) ∧
    (txnW.splits = [sBank, sImb] ∧
      set_dst_account envWnp txnW (some 5) = .error .missingPrice) :=
  ⟨⟨by decide, by decide,
    (claim_C7_uncaught envW rootW bookW ⟨["Missing"], []⟩ 2026 1).1 "Missing"
      (by decide) (by decide),
    (claim_C7_uncaught envW rootW bookW ⟨["Missing"], []⟩ 2026 1).2.2
      ((claim_C7_uncaught envW rootW bookW ⟨["Missing"], []⟩ 2026 1).1 "Missing"
        (by decide) (by decide))⟩,
   ⟨rfl, (claim_C7_uncaught envWnp rootW bookW ⟨["Missing"], []⟩ 2026 1).2.1
      txnW sBank sImb 5 rfl (by decide) rfl⟩⟩

/-! ### The process run and its reassignment events (C1) -/

theorem getTxn_set_ne (l : List Txn) (i j : Nat) (t : Txn) (h : i ≠ j) :
    (Book.mk (l.set i t)).getTxn j = (Book.mk l).getTxn j := by
  unfold Book.getTxn
  rw [List.getElem?_set_ne h]

theorem getTxn_set_self (l : List Txn) (i : Nat) (t : Txn) :
    (Book.mk (l.set i t)).getTxn i = if i < l.length then t else (Book.mk l).getTxn i := by
  unfold Book.getTxn
  rw [List.getElem?_set_self']
  by_cases h : i < l.length
  · rw [if_pos h, List.getElem?_eq_getElem h]
    rfl
  · rw [if_neg h, List.getElem?_eq_none (le_of_not_lt h)]
    rfl

theorem set_dst_account_isOk (env : Env) (txn : Txn) (s0 s1 : Split) (dstAcc : Nat)
    (hs : txn.splits = [s0, s1])
    (hpr : ∀ c₁ c₂ dt, (env.lookup_nearest_in_time64 c₁ c₂ dt).isSome = true) :
    ∃ t', set_dst_account env txn (some dstAcc) = .ok t' := by
  cases hc : accounts_eq_commodities env
      (if is_split_imbalanced env s0 then s1 else s0).accountId dstAcc with
  | true => exact ⟨_, set_dst_account_eqc env txn s0 s1 dstAcc hs hc⟩
  | false =>
    cases hp : env.lookup_nearest_in_time64
        (env.accounts (if is_split_imbalanced env s0 then s1 else s0).accountId).commodity
        (env.accounts dstAcc).commodity txn.date with
    | none =>
      have := hpr (env.accounts (if is_split_imbalanced env s0 then s1 else s0).accountId).commodity
        (env.accounts dstAcc).commodity txn.date
      rw [hp] at this
      cases this
    | some p => exact ⟨_, set_dst_account_neqc env txn s0 s1 dstAcc p hs hc hp⟩

theorem set_dst_account_preserves (env : Env) (txn t' : Txn) (d : Option Nat)
    (hok : set_dst_account env txn d = .ok t') :
    t'.description = txn.description ∧ t'.date = txn.date ∧
      t'.splits.length = txn.splits.length := by
  unfold set_dst_account at hok
  match hs : txn.splits with
  | [] => rw [hs] at hok; cases hok
  | [_] => rw [hs] at hok; cases hok
  | _ :: _ :: _ :: _ => rw [hs] at hok; cases hok
  | [s0, s1] =>
    rw [hs] at hok
    cases d with
    | none => cases hok
    | some dstAcc =>
      dsimp only at hok
      repeat' split at hok
      all_goals
        first
          | exact Except.noConfusion hok
          | (have h := Except.ok.inj hok
             subst h
             simp [hs])

theorem apply_fold_spec (env : Env) (dstAcc : Nat) :
    ∀ (ms : List Nat) (bk0 bk : Book) (evts0 : List (Nat × Option Nat)),
      ms.Nodup →
      (∀ i ∈ ms, bk0.getTxn i = bk.getTxn i) →
      (∀ i ∈ ms, ∃ t', set_dst_account env (bk.getTxn i) (some dstAcc) = .ok t') →
      bk0.txns.length = bk.txns.length →
      (∀ j, (bk0.getTxn j).description = (bk.getTxn j).description) →
      ∃ bk1 : Book,
        ms.foldlM (applyStep env (some dstAcc)) (bk0, evts0) =
          some (bk1, evts0 ++ ms.map (fun i => (i, some dstAcc))) ∧
        bk1.txns.length = bk.txns.length ∧
        (∀ j, j ∉ ms → bk1.getTxn j = bk0.getTxn j) ∧
        (∀ j, (bk1.getTxn j).description = (bk.getTxn j).description) := by
  intro ms
  induction ms with
  | nil =>
    intro bk0 bk evts0 _ _ _ hlen hdesc
    exact ⟨bk0, by simp, hlen, fun j _ => rfl, hdesc⟩
  | cons i ms ih =>
    intro bk0 bk evts0 hnd huntouched hok hlen hdesc
    rw [List.foldlM_cons]
    obtain ⟨t', ht'⟩ := hok i (List.mem_cons_self i ms)
    have hbk0i : bk0.getTxn i = bk.getTxn i := huntouched i (List.mem_cons_self i ms)
    have happ : applyStep env (some dstAcc) (bk0, evts0) i =
        some (⟨bk0.txns.set i t'⟩, evts0 ++ [(i, some dstAcc)]) := by
      unfold applyStep
      dsimp only
      rw [hbk0i, ht']
    rw [happ]
    have hnd' := List.nodup_cons.mp hnd
    have hpres := set_dst_account_preserves env (bk.getTxn i) t' (some dstAcc) ht'
    have huntouched' : ∀ j ∈ ms, (Book.mk (bk0.txns.set i t')).getTxn j = bk.getTxn j := by
      intro j hj
      have hne : i ≠ j := fun h => hnd'.1 (h ▸ hj)
      rw [getTxn_set_ne bk0.txns i j t' hne]
      exact huntouched j (List.mem_cons_of_mem i hj)
    have hlen' : (Book.mk (bk0.txns.set i t')).txns.length = bk.txns.length := by
      show (bk0.txns.set i t').length = bk.txns.length
      rw [List.length_set]
      exact hlen
    have hdesc' : ∀ j, ((Book.mk (bk0.txns.set i t')).getTxn j).description =
        (bk.getTxn j).description := by
      intro j
      by_cases hj : i = j
      · subst hj
        rw [getTxn_set_self]
        by_cases hi : i < bk0.txns.length
        · rw [if_pos hi, hpres.1]
        · rw [if_neg hi]
          exact hdesc i
      · rw [getTxn_set_ne bk0.txns i j t' hj]
        exact hdesc j
    obtain ⟨bk1, hfold, hl1, hu1, hd1⟩ := ih (Book.mk (bk0.txns.set i t')) bk
      (evts0 ++ [(i, some dstAcc)]) hnd'.2 huntouched'
      (fun j hj => hok j (List.mem_cons_of_mem i hj)) hlen' hdesc'
    refine ⟨bk1, ?_, hl1, ?_, hd1⟩
    · show ms.foldlM (applyStep env (some dstAcc)) (Book.mk (bk0.txns.set i t'),
        evts0 ++ [(i, some dstAcc)]) = _
      rw [hfold]
      rw [List.map_cons, List.append_assoc]
      rfl
    · intro j hj
      rw [List.mem_cons] at hj
      push_neg at hj
      rw [hu1 j hj.2]
      exact getTxn_set_ne bk0.txns i j t' (fun h => hj.1 h.symm)

theorem apply_rule_spec (env : Env) (bk : Book) (idxs : List Nat) (desc : String) (dstAcc : Nat)
    (hnd : (idxs.filter (fun i => (bk.getTxn i).description == desc)).Nodup)
    (hok : ∀ i ∈ idxs.filter (fun i => (bk.getTxn i).description == desc),
      ∃ t', set_dst_account env (bk.getTxn i) (some dstAcc) = .ok t') :
    ∃ bk' : Book,
      apply_rule env bk idxs desc (some dstAcc) =
        some (bk', (idxs.filter (fun i => (bk.getTxn i).description == desc)).map
          (fun i => (i, some dstAcc))) ∧
      bk'.txns.length = bk.txns.length ∧
      (∀ j, j ∉ idxs.filter (fun i => (bk.getTxn i).description == desc) →
        bk'.getTxn j = bk.getTxn j) ∧
      (∀ j, (bk'.getTxn j).description = (bk.getTxn j).description) := by
  unfold apply_rule
  obtain ⟨bk1, h1, h2, h3, h4⟩ := apply_fold_spec env dstAcc
    (idxs.filter (fun i => (bk.getTxn i).description == desc)) bk bk [] hnd
    (fun _ _ => rfl) hok rfl (fun _ => rfl)
  refine ⟨bk1, ?_, h2, h3, h4⟩
  rw [h1]
  rw [List.nil_append]

theorem rules_fold_spec (env : Env) (root : AccountTree) (book : Book) (txns : List Nat)
    (hnd : txns.Nodup)
    (hpr : ∀ c₁ c₂ dt, (env.lookup_nearest_in_time64 c₁ c₂ dt).isSome = true) :
    ∀ (rs : List (String × String)) (bk : Book) (evts : List (Nat × Option Nat)),
      (rs.map Prod.fst).Nodup →
      (∀ r ∈ rs, lookupFound root r.2 = true) →
      (∀ j, (bk.getTxn j).description = (book.getTxn j).description) →
      bk.txns.length = book.txns.length →
      (∀ i ∈ txns, (book.getTxn i).description ∈ rs.map Prod.fst →
        bk.getTxn i = book.getTxn i) →
      (∀ i ∈ txns, (book.getTxn i).description ∈ rs.map Prod.fst →
        (book.getTxn i).splits.length = 2) →
      ∃ bk', rs.foldlM (ruleStep env root txns) (bk, evts) =
        some (bk', evts ++ evtsFor root book txns rs) := by
  intro rs
  induction rs with
  | nil =>
    intro bk evts _ _ _ _ _ _
    exact ⟨bk, by simp [evtsFor]⟩
  | cons r rs ih =>
    intro bk evts hknd hlf hdesc hlen hunt hsp
    rw [List.foldlM_cons]
    have hknd' : (r.1 ∉ rs.map Prod.fst) ∧ (rs.map Prod.fst).Nodup := by
      rw [List.map_cons, List.nodup_cons] at hknd
      exact hknd
    obtain ⟨a, ha⟩ : ∃ a, account_lookup_by_path root r.2 = .ok (some a) := by
      have hlf1 := hlf r (List.mem_cons_self r rs)
      unfold lookupFound at hlf1
      cases hl : account_lookup_by_path root r.2 with
      | error e => rw [hl] at hlf1; cases hlf1
      | ok oa =>
        cases oa with
        | none => rw [hl] at hlf1; cases hlf1
        | some a => exact ⟨a, rfl⟩
    have hfilter : txns.filter (fun i => (bk.getTxn i).description == r.1) =
        txns.filter (fun i => (book.getTxn i).description == r.1) :=
      List.filter_congr (fun i _ => by rw [hdesc i])
    have hok : ∀ i ∈ txns.filter (fun i => (bk.getTxn i).description == r.1),
        ∃ t', set_dst_account env (bk.getTxn i) (some a.id) = .ok t' := by
      intro i hi
      rw [hfilter] at hi
      have hi' := List.mem_filter.mp hi
      have hdmem : (book.getTxn i).description ∈ (r :: rs).map Prod.fst := by
        rw [List.map_cons]
        have : (book.getTxn i).description = r.1 := by simpa using hi'.2
        rw [this]
        exact List.mem_cons_self r.1 (rs.map Prod.fst)
      have hbki : bk.getTxn i = book.getTxn i := hunt i hi'.1 hdmem
      have hs2 : (book.getTxn i).splits.length = 2 := hsp i hi'.1 hdmem
      obtain ⟨s0, s1, hss⟩ := List.length_eq_two.mp hs2
      rw [hbki]
      exact set_dst_account_isOk env (book.getTxn i) s0 s1 a.id hss hpr
    have hndf : (txns.filter (fun i => (bk.getTxn i).description == r.1)).Nodup :=
      List.Nodup.filter _ hnd
    obtain ⟨bk2, hap, hlen2, hunt2, hdesc2⟩ := apply_rule_spec env bk txns r.1 a.id hndf hok
    have hstep : ruleStep env root txns (bk, evts) r =
        some (bk2, evts ++ (txns.filter (fun i => (bk.getTxn i).description == r.1)).map
          (fun i => (i, some a.id))) := by
      unfold ruleStep
      rw [ha]
      dsimp only [Option.map]
      rw [hap]
    rw [hstep]
    have hdesc' : ∀ j, (bk2.getTxn j).description = (book.getTxn j).description :=
      fun j => (hdesc2 j).trans (hdesc j)
    have hlen' : bk2.txns.length = book.txns.length := hlen2.trans hlen
    have hunt' : ∀ i ∈ txns, (book.getTxn i).description ∈ rs.map Prod.fst →
        bk2.getTxn i = book.getTxn i := by
      intro i hi hmem
      have hne : (book.getTxn i).description ≠ r.1 := by
        intro h
        exact hknd'.1 (h ▸ hmem)
      have hnotin : i ∉ txns.filter (fun i => (bk.getTxn i).description == r.1) := by
        rw [hfilter]
        intro hc
        exact hne (by simpa using (List.mem_filter.mp hc).2)
      rw [hunt2 i hnotin]
      exact hunt i hi (by rw [List.map_cons]; exact List.mem_cons_of_mem r.1 hmem)
    have hsp' : ∀ i ∈ txns, (book.getTxn i).description ∈ rs.map Prod.fst →
        (book.getTxn i).splits.length = 2 :=
      fun i hi hmem => hsp i hi (by rw [List.map_cons]; exact List.mem_cons_of_mem r.1 hmem)
    have hlf' : ∀ q ∈ rs, lookupFound root q.2 = true :=
      fun q hq => hlf q (List.mem_cons_of_mem r hq)
    obtain ⟨bk', hrest⟩ := ih bk2
      (evts ++ (txns.filter (fun i => (bk.getTxn i).description == r.1)).map
        (fun i => (i, some a.id)))
      hknd'.2 hlf' hdesc' hlen' hunt' hsp'
    refine ⟨bk', ?_⟩
    show rs.foldlM (ruleStep env root txns)
      (bk2, evts ++ (txns.filter (fun i => (bk.getTxn i).description == r.1)).map
        (fun i => (i, some a.id))) = _
    rw [hrest]
    unfold evtsFor
    rw [List.flatMap_cons]
    have hdst : dstIdOf root r.2 = some a.id := by
      unfold dstIdOf
      rw [ha]
    rw [hfilter, hdst, List.append_assoc]

/-- C1: for a scanned account path resolving to `scanAcc` and a requested
month, a `process` run over that account succeeds and its reassignment
events are exactly as the claim says: `(i, d)` is an event iff transaction
`i` is reachable from a split of the scanned account with a date inside the
requested month (`get_transactions`), contains a split in an "Imbalance-"
prefixed account (`is_imbalanced`), and has a description equal to some
trigger of the rules — and then `d` is the account the corresponding rule's
destination path resolves to.  Hypotheses: the scanned path resolves, all
prices exist, every rule destination resolves, no transaction contributes
two splits to the scanned account, and every reassigned transaction has
exactly two splits. -/
theorem claim_C1_process_events (env : Env) (root : AccountTree) (book : Book)
    (scanPath : String) (rulesMap : List (String × List String)) (year : Int) (month : Nat)
    (scanAcc : AccountTree)
    (hacc : account_lookup_by_path root scanPath = .ok (some scanAcc))
    (hpr : ∀ c₁ c₂ dt, (env.lookup_nearest_in_time64 c₁ c₂ dt).isSome = true)
    (hdst : ∀ p ∈ rules2darules rulesMap, lookupFound root p.2 = true)
    (hnd : (get_transactions book scanAcc.id year month).Nodup)
    (hsp : ∀ i ∈ get_transactions book scanAcc.id year month,
      is_imbalanced env (book.getTxn i) = true →
      (book.getTxn i).description ∈ (rules2darules rulesMap).map Prod.fst →
      (book.getTxn i).splits.length = 2) :
    ∃ bk' evts, process env root book ⟨[scanPath], rulesMap⟩ year month = some (bk', evts) ∧
      ∀ i d, (i, d) ∈ evts ↔
        (i ∈ get_transactions book scanAcc.id year month ∧
         is_imbalanced env (book.getTxn i) = true ∧
         ∃ dpath a,
           pyDictLookup (rules2darules rulesMap) (book.getTxn i).description = some dpath ∧
           account_lookup_by_path root dpath = .ok (some a) ∧ d = some a.id) := by
  have htnd : ((get_transactions book scanAcc.id year month).filter
      (fun i => is_imbalanced env (book.getTxn i))).Nodup := List.Nodup.filter _ hnd
  have hkeys : ((rules2darules rulesMap).map Prod.fst).Nodup := rules2darules_keys_nodup rulesMap
  have hsp' : ∀ i ∈ (get_transactions book scanAcc.id year month).filter
      (fun i => is_imbalanced env (book.getTxn i)),
      (book.getTxn i).description ∈ (rules2darules rulesMap).map Prod.fst →
      (book.getTxn i).splits.length = 2 := by
    intro i hi hm
    have hi' := List.mem_filter.mp hi
    exact hsp i hi'.1 hi'.2 hm
  obtain ⟨bk', hfold⟩ := rules_fold_spec env root book
    ((get_transactions book scanAcc.id year month).filter
      (fun i => is_imbalanced env (book.getTxn i))) htnd hpr
    (rules2darules rulesMap) book [] hkeys hdst (fun _ => rfl) rfl (fun _ _ _ => rfl) hsp'
  rw [List.nil_append] at hfold
  refine ⟨bk', evtsFor root book
    ((get_transactions book scanAcc.id year month).filter
      (fun i => is_imbalanced env (book.getTxn i))) (rules2darules rulesMap), ?_, ?_⟩
  · unfold process
    dsimp only
    rw [List.foldlM_cons]
    have hstep : accountStep env root (rules2darules rulesMap) year month (book, []) scanPath =
        some (bk', evtsFor root book
          ((get_transactions book scanAcc.id year month).filter
            (fun i => is_imbalanced env (book.getTxn i))) (rules2darules rulesMap)) := by
      unfold accountStep
      rw [hacc]
      exact hfold
    rw [hstep]
    rfl
  · intro i d
    unfold evtsFor
    rw [List.mem_flatMap]
    constructor
    · rintro ⟨r, hr, hm⟩
      rcases List.mem_map.mp hm with ⟨j, hj, heq⟩
      have h1 : j = i := congrArg Prod.fst heq
      have h2 : dstIdOf root r.2 = d := congrArg Prod.snd heq
      subst h1
      have hj' := List.mem_filter.mp hj
      have hji := List.mem_filter.mp hj'.1
      have hdi : (book.getTxn j).description = r.1 := by simpa using hj'.2
      obtain ⟨a, ha⟩ : ∃ a, account_lookup_by_path root r.2 = .ok (some a) := by
        have hlf1 := hdst r hr
        unfold lookupFound at hlf1
        cases hl : account_lookup_by_path root r.2 with
        | error e => rw [hl] at hlf1; cases hlf1
        | ok oa =>
          cases oa with
          | none => rw [hl] at hlf1; cases hlf1
          | some a => exact ⟨a, rfl⟩
      refine ⟨hji.1, hji.2, r.2, a, ?_, ha, ?_⟩
      · apply pyDictLookup_eq_some_of_mem _ hkeys
        have hrr : r = ((book.getTxn j).description, r.2) := by
          cases r
          simp only [Prod.mk.injEq]
          exact ⟨hdi.symm, trivial⟩
        rw [← hrr]
        exact hr
      · rw [← h2]
        unfold dstIdOf
        rw [ha]
    · rintro ⟨hmem, himb, dpath, a, hlook, hpa, rfl⟩
      refine ⟨((book.getTxn i).description, dpath), mem_of_pyDictLookup_eq_some _ hlook, ?_⟩
      apply List.mem_map.mpr
      refine ⟨i, ?_, ?_⟩
      · apply List.mem_filter.mpr
        refine ⟨List.mem_filter.mpr ⟨hmem, himb⟩, ?_⟩
        simp
      · unfold dstIdOf
        rw [hpa]

theorem claim_C1_witness :
    account_lookup_by_path rootW "Bank" = .ok (some (.node 1 "Bank" [])) ∧
    ∃ bk' evts,
      process envW rootW bookW ⟨["Bank"], [("Expenses:Food", ["BIEDRONKA"])]⟩ 2026 1 =
        some (bk', evts) ∧
      ∀ i d, (i, d) ∈ evts ↔
        (i ∈ get_transactions bookW (AccountTree.node 1 "Bank" []).id 2026 1 ∧
         is_imbalanced envW (bookW.getTxn i) = true ∧
         ∃ dpath a,
           pyDictLookup (rules2darules [("Expenses:Food", ["BIEDRONKA"])])
             (bookW.getTxn i).description = some dpath ∧
           account_lookup_by_path rootW dpath = .ok (some a) ∧ d = some a.id) :=
  ⟨rfl, claim_C1_process_events envW rootW bookW "Bank" [("Expenses:Food", ["BIEDRONKA"])]
    2026 1 (.node 1 "Bank" []) rfl (fun _ _ _ => rfl) (by decide) (by decide) (by decide)⟩
